import Mathlib

/-!
# Verification of the kit code generator (flier/kit)

Shallow embedding of the extraction-and-generation core:

* `src/kitgen/render.go` — decorator-comment parsing, signature extraction,
  template resolution/cache, render accumulation (package `kitgen`, namespace
  `Kitgen` below).
* `src/unnamed/part_000` — an alternative copy of the same render module
  (namespace `Part000` below).

Go strings are modelled as Lean `String`s; all inputs of interest are ASCII,
where Go byte indexing and Lean character indexing coincide.  Machine-level
concerns (pointers, the `go/ast` node types) are replaced by explicit
structures carrying exactly the fields the code reads.
-/

/-! ## Go string primitives (ASCII fragment of the `strings`/`unicode` stdlib) -/

/-- Go `unicode.IsSpace`, restricted to the characters that can occur here
(ASCII whitespace plus the two Latin-1 spaces Go also accepts). -/
def goIsSpace (c : Char) : Bool :=
  c = ' ' || c = '\t' || c = '\n' || c = '\x0b' || c = '\x0c' || c = '\r' ||
  c = '\x85' || c = '\xa0'

/-- Go `unicode.ToUpper` on one character (ASCII fragment). -/
def goToUpperChar (c : Char) : Char :=
  if 'a' ≤ c ∧ c ≤ 'z' then Char.ofNat (c.toNat - 32) else c

/-- Go `unicode.ToLower` on one character (ASCII fragment). -/
def goToLowerChar (c : Char) : Char :=
  if 'A' ≤ c ∧ c ≤ 'Z' then Char.ofNat (c.toNat + 32) else c

/-- Go `unicode.ToTitle` on one character.  On ASCII, title case and upper
case coincide. -/
def goToTitleChar (c : Char) : Char :=
  if 'a' ≤ c ∧ c ≤ 'z' then Char.ofNat (c.toNat - 32) else c

/-- Go `strings.ToUpper`. -/
def goToUpper (s : String) : String := String.mk (s.data.map goToUpperChar)

/-- Go `strings.ToLower`. -/
def goToLower (s : String) : String := String.mk (s.data.map goToLowerChar)

/-- Go `strings.ToTitle`: maps EVERY rune to its title case. -/
def goToTitle (s : String) : String := String.mk (s.data.map goToTitleChar)

/-- Go `strings.isSeparator` (used by `strings.Title`), ASCII fragment:
letters, digits and underscore are not separators, everything else is. -/
def goIsSeparator (c : Char) : Bool :=
  if c.toNat ≤ 0x7F then
    !(('0' ≤ c ∧ c ≤ '9') || ('a' ≤ c ∧ c ≤ 'z') || ('A' ≤ c ∧ c ≤ 'Z') || c = '_')
  else goIsSpace c

/-- Worker for `strings.Title`: title-case a character when the previous
character was a separator (the scan starts as if after a space). -/
def goTitleAux : Char → List Char → List Char
  | _, [] => []
  | prev, c :: cs =>
      (if goIsSeparator prev then goToTitleChar c else c) :: goTitleAux c cs

/-- Go `strings.Title` (deprecated in later Go, used by this code):
title-cases the first letter of every word. -/
def goTitle (s : String) : String := String.mk (goTitleAux ' ' s.data)

/-- Go `strings.TrimSpace` on a character list. -/
def goTrimSpace (s : List Char) : List Char :=
  ((s.dropWhile goIsSpace).reverse.dropWhile goIsSpace).reverse

/-- Go `strings.Join(a, sep)`. -/
def goJoin (a : List String) (sep : String) : String :=
  String.intercalate sep a

/-! ## Go `encoding/csv`: reading one record

The reader in `parseDecorators` is configured with `Comma = ','`,
`Comment = '#'`, `TrimLeadingSpace = true`, `LazyQuotes = false`, and reads a
single record from the remainder of one decorator comment line.  Comment
lines never contain a newline (only `//`-style comments carry the marker
prefix), so a single-line model of `Reader.Read` is faithful: the record is
the fields of that one line, and any decode error (bare quote in an unquoted
field, unterminated or malformed quoting) yields `none`, as does an empty or
comment-only input (`io.EOF`).

The `fuel` argument only serves termination; every recursive call consumes at
least one character of `line`, so `line.length + 1` fuel is never exhausted. -/

mutual

/-- Field loop of Go `csv.Reader.readRecord` (one line, see above).
Trims leading space, then reads one unquoted field up to the comma, or
dispatches to the quoted-field scanner. -/
def csvFields : Nat → List Char → List String → Option (List String)
  | 0, _, _ => none
  | Nat.succ fuel, line, acc =>
    let l := line.dropWhile goIsSpace
    match l with
    | '\x22' :: rest => csvQuoted fuel rest [] acc
    | _ =>
      let field := l.takeWhile (fun c => c ≠ ',')
      let rest := l.dropWhile (fun c => c ≠ ',')
      if field.contains '\x22' then none
      else
        match rest with
        | ',' :: rest2 => csvFields fuel rest2 (acc ++ [String.mk field])
        | _ => some (acc ++ [String.mk field])

/-- Quoted-field scanner of Go `csv.Reader.readRecord`: a doubled quote is a
literal quote, a closing quote must be followed by a comma or the end of the
line, and a missing closing quote is an error (`ErrQuote`). -/
def csvQuoted : Nat → List Char → List Char → List String → Option (List String)
  | 0, _, _, _ => none
  | Nat.succ fuel, line, fieldAcc, acc =>
    let pre := line.takeWhile (fun c => c ≠ '\x22')
    let rest := line.dropWhile (fun c => c ≠ '\x22')
    match rest with
    | [] => none
    | _ :: after =>
      match after with
      | '\x22' :: more => csvQuoted fuel more (fieldAcc ++ pre ++ ['\x22']) acc
      | ',' :: more => csvFields fuel more (acc ++ [String.mk (fieldAcc ++ pre)])
      | [] => some (acc ++ [String.mk (fieldAcc ++ pre)])
      | _ => none

end

/-- Go `csv.Reader.Read` on the parameter remainder of one decorator line:
empty input and comment lines are skipped, after which the reader hits end of
input (`io.EOF`, an error); otherwise the one record of the line is decoded. -/
def csvReadRecord (s : String) : Option (List String) :=
  match s.data with
  | [] => none
  | c :: _ =>
    if c = '#' then none
    else csvFields (s.data.length + 1) s.data []

/-! ## Decorator comment lines -/

/-- Modelled from the spec: the marker prefix of a decorator comment.  The
constant `kitCommentPrefix` is referenced by both render modules but declared
in a file missing from the sources; the spec gives the line format
`//kit:endpoint http,grpc`, fixing the prefix. -/
def kitCommentPrefix : String := "//kit:"

/-- Modelled from the spec: `kitCommentSep.Split(line, 2)`, the regular
expression used to split a decorator line is declared in a file missing from
the sources; the spec describes it as splitting at the first occurrence of a
whitespace-delimited token boundary.  Returns the text before the first
whitespace run and, when such a run exists, the text after it. -/
def sepSplit2Aux : List Char → List Char × Option (List Char)
  | [] => ([], none)
  | c :: cs =>
    if goIsSpace c then ([], some (cs.dropWhile goIsSpace))
    else
      let p := sepSplit2Aux cs
      (c :: p.1, p.2)

/-- The per-line analysis shared by both copies of `parseDecorators`: test
for the marker prefix, strip it, split once at the separator, trim the name.
Returns `none` for lines without the prefix. -/
def decorLineParse (text : String) : Option (String × Option String) :=
  if kitCommentPrefix.data.isPrefixOf text.data then
    let rest := text.data.drop kitCommentPrefix.data.length
    let parts := sepSplit2Aux rest
    some (String.mk (goTrimSpace parts.1), parts.2.map String.mk)
  else none

/-- Parameter decoding of one decorator line: no second part means no
parameters (`params` stays nil); otherwise a CSV decode whose failure is
silently treated as no parameters (the `err == nil` guard). -/
def lineParams : Option String → Option (List String)
  | none => none
  | some s => csvReadRecord s

/-- The decorator map `map[string][]string`, as an association list keyed by
decorator name.  The value `none` models a nil parameter slice, `some ps` a
non-nil one; Go map iteration order is not observable through `List.lookup`,
which is how every theorem below reads this structure. -/
abbrev DecorMap := List (String × Option (List String))

/-- Go map assignment `m[k] = v`: overwrite the entry if the key is present,
append a new entry otherwise. -/
def setEntry : DecorMap → String → Option (List String) → DecorMap
  | [], n, v => [(n, v)]
  | e :: rest, n, v =>
    if e.1 == n then (n, v) :: rest else e :: setEntry rest n v

/-- Go `append(old, ps...)` on a possibly-nil slice `old`: appending nothing
to a nil slice leaves it nil. -/
def goAppendStr : Option (List String) → List String → Option (List String)
  | none, ps => if ps.isEmpty then none else some ps
  | some xs, ps => some (xs ++ ps)

namespace Kitgen

/-- One iteration of the comment loop of `TypeRender.parseDecorators` in
`src/kitgen/render.go`: lines without the marker are skipped; otherwise the
name and decoded parameters are merged into the map — install on a fresh
name, append when the name exists and the line supplied parameters, plain
assignment otherwise. -/
def decorStep (st : DecorMap) (text : String) : DecorMap :=
  match decorLineParse text with
  | none => st
  | some (name, part2) =>
    let params := lineParams part2
    match st.lookup name with
    | some old =>
      if params.isSome then setEntry st name (goAppendStr old (params.getD []))
      else setEntry st name params
    | none => setEntry st name params

/-- `TypeRender.parseDecorators` of `src/kitgen/render.go`: fold the comment
lines of the group (a nil `*ast.CommentGroup` contributes nothing). -/
def parseDecorators (comments : Option (List String)) : DecorMap :=
  match comments with
  | none => []
  | some lines => lines.foldl decorStep []

end Kitgen

namespace Part000

/-- One iteration of the comment loop of `TypeRender.parseDecorators` in
`src/unnamed/part_000`; the loop body is textually identical to the one in
`src/kitgen/render.go`. -/
def decorStep (st : DecorMap) (text : String) : DecorMap :=
  match decorLineParse text with
  | none => st
  | some (name, part2) =>
    let params := lineParams part2
    match st.lookup name with
    | some old =>
      if params.isSome then setEntry st name (goAppendStr old (params.getD []))
      else setEntry st name params
    | none => setEntry st name params

/-- `TypeRender.parseDecorators` of `src/unnamed/part_000`. -/
def parseDecorators (comments : Option (List String)) : DecorMap :=
  match comments with
  | none => []
  | some lines => lines.foldl decorStep []

end Part000

/-! ## Signature extraction -/

/-- One `*ast.Field` of a parameter or result field list: the declared names
(empty for an unnamed entry) and the type, which this code requires to be a
plain identifier (`field.Type.(*ast.Ident)`). -/
structure GoField where
  names : List String
  typeName : String
deriving DecidableEq

namespace Kitgen

/-- Loop of `TypeRender.parseFieldList` in `src/kitgen/render.go`, with the
unnamed-entry counter `i` and the accumulated entries made explicit.  A named
entry contributes one `{Name, Type}` pair per declared name, each name passed
through `strings.Title`; an unnamed entry contributes a single pair named
`strings.Title(typeName[:1])` followed by the counter, and bumps the
counter. -/
def parseFieldListAux : List GoField → Nat → List (String × String) →
    List (String × String)
  | [], _, acc => acc
  | f :: rest, i, acc =>
    let names :=
      if 0 < f.names.length then f.names.map goTitle
      else [goTitle (String.mk (f.typeName.data.take 1)) ++ toString i]
    let i2 := if 0 < f.names.length then i else i + 1
    parseFieldListAux rest i2 (acc ++ names.map (fun n => (n, f.typeName)))

/-- `TypeRender.parseFieldList` of `src/kitgen/render.go`: the list of
`{Name, Type}` entries for one field list. -/
def parseFieldList (fields : List GoField) : List (String × String) :=
  parseFieldListAux fields 0 []

end Kitgen

namespace Part000

/-- Loop of `TypeRender.parseFieldList` in `src/unnamed/part_000`: one entry
per field (not per name), carrying the whole `Names` list; the synthetic name
of an unnamed entry uses `strings.Title(typeName)`, the full type name. -/
def parseFieldListAux : List GoField → Nat → List (List String × String) →
    List (List String × String)
  | [], _, acc => acc
  | f :: rest, i, acc =>
    let names :=
      if 0 < f.names.length then f.names.map goTitle
      else [goTitle f.typeName ++ toString i]
    let i2 := if 0 < f.names.length then i else i + 1
    parseFieldListAux rest i2 (acc ++ [(names, f.typeName)])

/-- `TypeRender.parseFieldList` of `src/unnamed/part_000`. -/
def parseFieldList (fields : List GoField) : List (List String × String) :=
  parseFieldListAux fields 0 []

end Part000

/-- The field-list behaviour that claim C1, amended, asserts of
`src/kitgen/render.go`: in declaration order, a named entry yields one pair
per declared name (Title-cased); an unnamed entry yields exactly one pair
whose name is the capitalized first character of the type name followed by a
zero-based counter that counts only the unnamed entries of this field
list. -/
def fieldListSpec : List GoField → Nat → List (String × String)
  | [], _ => []
  | f :: rest, i =>
    if f.names.isEmpty then
      (goTitle (String.mk (f.typeName.data.take 1)) ++ toString i, f.typeName)
        :: fieldListSpec rest (i + 1)
    else
      f.names.map (fun n => (goTitle n, f.typeName)) ++ fieldListSpec rest i

/-! ## Interface model and the declaration walker -/

/-- One method entry of an interface: `method.Names` and, when the method
type is a plain function signature, its parameter and result field lists.
`funcType = none` models a non-`*ast.FuncType` method type (an embedded
interface), which the extraction skips. -/
structure GoMethodField where
  names : List String
  funcType : Option (List GoField × List GoField)
deriving DecidableEq

/-- The underlying type of one `*ast.TypeSpec`: an interface with its method
list, or anything else (skipped by the extraction). -/
inductive GoTypeExpr where
  | intf (methods : List GoMethodField)
  | other
deriving DecidableEq

/-- One `*ast.TypeSpec` of a type declaration group. -/
structure GoTypeSpec where
  name : String
  typeExpr : GoTypeExpr
deriving DecidableEq

/-- The `{Name, Params, Results}` record built for one interface method. -/
structure MethodModel where
  name : String
  params : List (String × String)
  results : List (String × String)
deriving DecidableEq

/-- The `{Name, Methods}` record built for one matching type spec. -/
structure TypeModel where
  name : String
  methods : List MethodModel
deriving DecidableEq

namespace Kitgen

/-- `TypeRender.parseSpecs` of `src/kitgen/render.go`: for every spec whose
declared name equals the requested type name and whose underlying type is an
interface, collect one `MethodModel` per directly-declared method with a
function type (Go reads `method.Names[0]`; a function-typed interface method
always has exactly one name, the model reads the head with a default). -/
def parseSpecs (rname : String) (specs : List GoTypeSpec) : List TypeModel :=
  specs.foldl
    (fun acc spec =>
      if spec.name = rname then
        match spec.typeExpr with
        | GoTypeExpr.intf methods =>
          let ms := methods.foldl
            (fun macc m =>
              match m.funcType with
              | some ft =>
                macc ++ [⟨m.names.headD "", parseFieldList ft.1, parseFieldList ft.2⟩]
              | none => macc)
            []
          acc ++ [⟨spec.name, ms⟩]
        | GoTypeExpr.other => acc
      else acc)
    []

end Kitgen

/-! ## Template resolution and the render loop (`src/kitgen/render.go`) -/

/-- One parsed template of the process-wide registry (`topLevelTemplate`
namespace), identified by its name. -/
structure GoTemplate where
  name : String
  source : String
deriving DecidableEq

/-- Modelled from the spec: the embedded template filesystem.  The
esc-generated file (`temlates.go`, the `FS` function) is not among the
sources; per the spec, templates live at paths
`templates/<decoratorName>/<parameterToken>.tmpl` and opening a missing path
fails.  A path-to-source association list suffices. -/
def TemplateFS := List (String × String)

/-- The error text of a failed open, as wrapped by `loadTemplate`
(`fmt.Errorf("fail to open template, %s", err)`).  Modelled from the spec:
the esc-generated `FS.Open` is not among the sources, and the spec requires
the missing-template error to name the requested path (hence the decorator
and the parameter embedded in it); the inner text follows the usual Go
path-error shape. -/
def openFailMsg (name : String) : String :=
  "fail to open template, open " ++ name ++ ": file does not exist"

/-- `loadTemplate` of `src/kitgen/render.go`: scan the registry for a
template already registered under the exact name and return it; otherwise
open and read the source at that path (an error if absent) and parse it.
Modelled from the spec: parsing registers the loaded template under its path
in the shared registry (the template files, not among the sources, define
their contents under their own path names).  The boolean records whether this
call read and parsed the source. -/
def loadTemplate (fs : TemplateFS) (reg : List GoTemplate) (name : String) :
    Except String (GoTemplate × List GoTemplate × Bool) :=
  match reg.find? (fun t => t.name == name) with
  | some t => Except.ok (t, reg, false)
  | none =>
    match List.lookup name fs with
    | none => Except.error (openFailMsg name)
    | some data => Except.ok (⟨name, data⟩, reg ++ [⟨name, data⟩], true)

namespace Kitgen

/-- The template path built in `TypeRender.visit`:
`fmt.Sprintf("/templates/%s/%s.tmpl", decorator, name)`. -/
def templatePath (decorator pname : String) : String :=
  "/templates/" ++ decorator ++ "/" ++ pname ++ ".tmpl"

/-- One `(decorator, parameter)` iteration of the render loop in
`TypeRender.visit`: resolve the template (a failure is fatal for the run and
produces no output) and execute it against the extracted models, appending
the rendered text to the buffer.  Template execution itself (`text/template`)
is outside the extraction core and is abstracted by `exec`. -/
def renderCombo (fs : TemplateFS) (exec : GoTemplate → List TypeModel → String)
    (reg : List GoTemplate) (models : List TypeModel) (buf : String)
    (decorator pname : String) : Except String (String × List GoTemplate) :=
  match loadTemplate fs reg (templatePath decorator pname) with
  | Except.error e => Except.error e
  | Except.ok (t, reg2, _) => Except.ok (buf ++ exec t models, reg2)

/-- The `*ast.GenDecl`/`token.TYPE` branch of `TypeRender.visit` in
`src/kitgen/render.go`: parse the decorators of the doc comment; when any
exist and the specs yield a model, run the render loop over every decorator
and every parameter token, threading the buffer and the registry; otherwise
leave the buffer untouched. -/
def visitTypeDecl (fs : TemplateFS) (exec : GoTemplate → List TypeModel → String)
    (rname : String) (doc : Option (List String)) (specs : List GoTypeSpec)
    (reg : List GoTemplate) (buf : String) :
    Except String (String × List GoTemplate) :=
  let decorators := parseDecorators doc
  if 0 < decorators.length then
    let specModels := parseSpecs rname specs
    if 0 < specModels.length then
      decorators.foldlM
        (fun st entry =>
          (entry.2.getD []).foldlM
            (fun st2 pname => renderCombo fs exec st2.2 specModels st2.1 entry.1 pname)
            st)
        (buf, reg)
    else Except.ok (buf, reg)
  else Except.ok (buf, reg)

/-! The template helper set of `topLevelTemplate` in `src/kitgen/render.go`. -/

/-- Helper `join`: `strings.Join(a, ",")`. -/
def joinHelper (a : List String) : String := goJoin a ","

/-- Helper `capitalize`: `strings.ToTitle(s)`. -/
def capitalizeHelper (s : String) : String := goToTitle s

/-- Helper `uncapitalize`: `strings.ToLower(s[:1]) + s[1:]`.  On the empty
string the slice `s[:1]` is out of range and Go aborts with a runtime error;
the model returns `none` there. -/
def uncapitalizeHelper (s : String) : Option String :=
  match s.data with
  | [] => none
  | c :: cs => some (String.mk (goToLowerChar c :: cs))

/-- Helper `upper`: `strings.ToUpper(s)`. -/
def upperHelper (s : String) : String := goToUpper s

/-- Helper `lower`: `strings.ToLower(s)`. -/
def lowerHelper (s : String) : String := goToLower s

end Kitgen

/-- The decorator name announced by one comment line: the name component of
`decorLineParse`, when the line carries the marker prefix. -/
def decorName (text : String) : Option String :=
  (decorLineParse text).map Prod.fst

/-! ## Lemmas about the map operations -/

theorem setEntry_lookup_self (st : DecorMap) (n : String) (v : Option (List String)) :
    (setEntry st n v).lookup n = some v := by
  induction st with
  | nil => simp [setEntry, List.lookup]
  | cons e rest ih =>
    by_cases h : e.1 = n
    · simp [setEntry, h, List.lookup]
    · have hb : (n == e.1) = false := beq_eq_false_iff_ne.mpr (Ne.symm h)
      simp [setEntry, h, List.lookup, hb, ih]

theorem setEntry_lookup_other (st : DecorMap) (m n : String)
    (v : Option (List String)) (h : m ≠ n) :
    (setEntry st m v).lookup n = st.lookup n := by
  have hb : (n == m) = false := beq_eq_false_iff_ne.mpr (Ne.symm h)
  induction st with
  | nil => simp [setEntry, List.lookup, hb]
  | cons e rest ih =>
    by_cases he : e.1 = m
    · simp [setEntry, he, List.lookup, hb]
    · by_cases hn : n = e.1
      · simp [setEntry, he, List.lookup, hn]
      · have hb2 : (n == e.1) = false := beq_eq_false_iff_ne.mpr hn
        simp [setEntry, he, List.lookup, hb2, ih]

/-! ## Lemmas about one decorator step -/

theorem decorStep_lookup_skip (st : DecorMap) (l : String) (n : String)
    (h : decorName l ≠ some n) :
    (Kitgen.decorStep st l).lookup n = st.lookup n := by
  unfold Kitgen.decorStep
  cases hp : decorLineParse l with
  | none => rfl
  | some pr =>
    obtain ⟨m, q⟩ := pr
    have hm : m ≠ n := by
      intro e
      exact h (by simp [decorName, hp, e])
    cases hl : st.lookup m with
    | some old =>
      by_cases hs : (lineParams q).isSome <;>
        simp [hl, hs, setEntry_lookup_other _ _ _ _ hm]
    | none => simp [hl, setEntry_lookup_other _ _ _ _ hm]

theorem decorStep_lookup_mine (st : DecorMap) (l : String) (n : String)
    (q : Option String) (h : decorLineParse l = some (n, q)) :
    (Kitgen.decorStep st l).lookup n =
      some (match st.lookup n, lineParams q with
            | some old, some ps => goAppendStr old ps
            | some _, none => none
            | none, pm => pm) := by
  unfold Kitgen.decorStep
  rw [h]
  cases hl : st.lookup n with
  | some old =>
    cases hq : lineParams q with
    | some ps => simp [hl, hq, setEntry_lookup_self]
    | none => simp [hl, hq, setEntry_lookup_self]
  | none => cases hq : lineParams q <;> simp [hl, hq, setEntry_lookup_self]

theorem foldl_decorStep_skip (ls : List String) (st : DecorMap) (n : String)
    (h : ∀ l ∈ ls, decorName l ≠ some n) :
    (ls.foldl Kitgen.decorStep st).lookup n = st.lookup n := by
  induction ls generalizing st with
  | nil => rfl
  | cons l ls ih =>
    rw [List.foldl_cons, ih _ (fun x hx => h x (List.mem_cons_of_mem _ hx)),
      decorStep_lookup_skip st l n (h l (List.mem_cons_self _ _))]

/-! ## Lemmas about the CSV reader -/

/-- A successful read strictly grows the accumulated field list: every
decoded record has at least one field. -/
theorem csv_growth (fuel : Nat) :
    (∀ line acc r, csvFields fuel line acc = some r → acc.length < r.length) ∧
    (∀ line fa acc r, csvQuoted fuel line fa acc = some r → acc.length < r.length) := by
  induction fuel with
  | zero =>
    exact ⟨fun _ _ _ h => by simp [csvFields] at h,
           fun _ _ _ _ h => by simp [csvQuoted] at h⟩
  | succ m ih =>
    constructor
    · intro line acc r h
      simp only [csvFields] at h
      split at h
      · exact ih.2 _ _ _ _ h
      · split at h
        · exact absurd h (by simp)
        · split at h
          · have := ih.1 _ _ _ h
            simp only [List.length_append, List.length_cons, List.length_nil] at this
            omega
          · have := Option.some.inj h
            subst this
            simp
    · intro line fa acc r h
      simp only [csvQuoted] at h
      split at h
      · exact absurd h (by simp)
      · split at h
        · exact ih.2 _ _ _ _ h
        · have := ih.1 _ _ _ h
          simp only [List.length_append, List.length_cons, List.length_nil] at this
          omega
        · have := Option.some.inj h
          subst this
          simp
        · exact absurd h (by simp)

/-- The decoded record of one line is never empty. -/
theorem csvReadRecord_ne_nil (s : String) (r : List String)
    (h : csvReadRecord s = some r) : r ≠ [] := by
  cases hd : s.data with
  | nil => simp only [csvReadRecord, hd] at h; exact absurd h (by simp)
  | cons c cs =>
    simp only [csvReadRecord, hd] at h
    by_cases hc : c = '#'
    · rw [if_pos hc] at h; exact absurd h (by simp)
    · rw [if_neg hc] at h
      have := (csv_growth ((c :: cs).length + 1)).1 _ _ _ h
      simp only [List.length_nil] at this
      exact List.ne_nil_of_length_pos this

/-! ## Lemmas about the separator split and trimming -/

theorem sepSplit2Aux_fst_no_space (s : List Char) :
    ∀ c ∈ (sepSplit2Aux s).1, goIsSpace c = false := by
  induction s with
  | nil => intro c hc; simp [sepSplit2Aux] at hc
  | cons a as ih =>
    intro c hc
    by_cases ha : goIsSpace a = true
    · simp [sepSplit2Aux, ha] at hc
    · simp only [sepSplit2Aux, ha, if_false, Bool.false_eq_true] at hc
      rcases List.mem_cons.mp hc with rfl | hc2
      · simpa using ha
      · exact ih c hc2

theorem sepSplit2Aux_no_space (s : List Char)
    (h : ∀ c ∈ s, goIsSpace c = false) : sepSplit2Aux s = (s, none) := by
  induction s with
  | nil => rfl
  | cons a as ih =>
    have ha := h a (List.mem_cons_self a as)
    simp [sepSplit2Aux, ha, ih (fun c hc => h c (List.mem_cons_of_mem _ hc))]

theorem dropWhile_no_space (s : List Char)
    (h : ∀ c ∈ s, goIsSpace c = false) : s.dropWhile goIsSpace = s := by
  cases s with
  | nil => rfl
  | cons a as => simp [List.dropWhile, h a (List.mem_cons_self a as)]

theorem goTrimSpace_no_space (s : List Char)
    (h : ∀ c ∈ s, goIsSpace c = false) : goTrimSpace s = s := by
  unfold goTrimSpace
  rw [dropWhile_no_space s h,
    dropWhile_no_space _ (fun c hc => h c (List.mem_reverse.mp hc)),
    List.reverse_reverse]

theorem mem_of_mem_goTrimSpace (s : List Char) (c : Char)
    (hc : c ∈ goTrimSpace s) : c ∈ s := by
  unfold goTrimSpace at hc
  have h1 := List.mem_reverse.mp hc
  have h2 := (List.dropWhile_sublist _).subset h1
  have h3 := List.mem_reverse.mp h2
  exact (List.dropWhile_sublist _).subset h3

/-! ## Lemmas about decorator line analysis -/

theorem decorLineParse_name_no_space (l : String) (n : String) (q : Option String)
    (h : decorLineParse l = some (n, q)) : ∀ c ∈ n.data, goIsSpace c = false := by
  unfold decorLineParse at h
  by_cases hp : kitCommentPrefix.data.isPrefixOf l.data = true
  · rw [if_pos hp] at h
    have hn := (Prod.mk.injEq _ _ _ _).mp (Option.some.inj h)
    intro c hc
    rw [← hn.1] at hc
    exact sepSplit2Aux_fst_no_space _ c (mem_of_mem_goTrimSpace _ c hc)
  · rw [if_neg hp] at h
    exact absurd h (by simp)

theorem decorLineParse_prefix_append (n : String)
    (h : ∀ c ∈ n.data, goIsSpace c = false) :
    decorLineParse (kitCommentPrefix ++ n) = some (n, none) := by
  have hp : kitCommentPrefix.data.isPrefixOf ((kitCommentPrefix ++ n) : String).data = true := by
    rw [String.data_append, List.isPrefixOf_iff_prefix]
    exact List.prefix_append _ _
  simp only [decorLineParse, hp, if_true, String.data_append, List.drop_left,
    sepSplit2Aux_no_space n.data h]
  simp [goTrimSpace_no_space n.data h]

/-! ## Field-list extraction: claims C1 and C3 -/

/-- The accumulating loop of `Kitgen.parseFieldList` computes the direct
recursion `fieldListSpec`. -/
theorem parseFieldListAux_eq_spec (fields : List GoField) :
    ∀ (i : Nat) (acc : List (String × String)),
      Kitgen.parseFieldListAux fields i acc = acc ++ fieldListSpec fields i := by
  induction fields with
  | nil => intro i acc; simp [Kitgen.parseFieldListAux, fieldListSpec]
  | cons f rest ih =>
    intro i acc
    cases hn : f.names with
    | nil =>
      simp [Kitgen.parseFieldListAux, fieldListSpec, hn, ih]
    | cons a as =>
      simp [Kitgen.parseFieldListAux, fieldListSpec, hn, ih, List.map_map,
        Function.comp]

/-- C1 (amended): in `src/kitgen/render.go`, every field-list entry without
explicit names produces exactly one (name, type) pair whose name is the
capitalized FIRST CHARACTER of the type name (`strings.Title(typeName[:1])`,
the remaining characters are dropped) followed by a zero-based index counting
only the unnamed entries of that field list, in declaration order and
regardless of named fields interleaved in the same list; named entries
produce one Title-cased pair per name. -/
theorem parseFieldList_synthetic_names (fields : List GoField) :
    Kitgen.parseFieldList fields = fieldListSpec fields 0 := by
  have h := parseFieldListAux_eq_spec fields 0 []
  simpa [Kitgen.parseFieldList] using h

/-- C1 counterexample: two unnamed `int` parameters in one field list yield
the names `I0` and `I1` under `src/kitgen/render.go`, not `Int0` and `Int1`
as the claim states; the `src/unnamed/part_000` variant does produce
`Int0`/`Int1` (in its per-field `Names` representation). -/
theorem parseFieldList_synthetic_names_cex :
    Kitgen.parseFieldList [⟨[], "int"⟩, ⟨[], "int"⟩] = [("I0", "int"), ("I1", "int")] ∧
    Kitgen.parseFieldList [⟨[], "int"⟩, ⟨[], "int"⟩] ≠ [("Int0", "int"), ("Int1", "int")] ∧
    Part000.parseFieldList [⟨[], "int"⟩, ⟨[], "int"⟩] = [(["Int0"], "int"), (["Int1"], "int")] := by
  decide

/-- C3 (amended): in `src/kitgen/render.go`, a field-list entry with
explicit names produces one (name, type) pair per declared name, in
declaration order — but each name is passed through `strings.Title`
(first letter capitalized), not kept verbatim: `(a, b Foo)` yields
`{A, Foo}` and `{B, Foo}`, and the rest of the field list is processed
unchanged (named entries do not consume the unnamed counter). -/
theorem parseFieldList_named_expansion (ns : List String) (tn : String)
    (rest : List GoField) (h : ns ≠ []) :
    Kitgen.parseFieldList (⟨ns, tn⟩ :: rest) =
      ns.map (fun n => (goTitle n, tn)) ++ Kitgen.parseFieldList rest := by
  cases ns with
  | nil => exact absurd rfl h
  | cons a as =>
    have h1 := parseFieldListAux_eq_spec (⟨a :: as, tn⟩ :: rest) 0 []
    have h2 := parseFieldListAux_eq_spec rest 0 []
    simp [Kitgen.parseFieldList, h1, h2, fieldListSpec]

/-- Witness for C3 at `(a, b Foo)`. -/
theorem parseFieldList_named_expansion_witness :
    (["a", "b"] ≠ ([] : List String)) ∧
    Kitgen.parseFieldList [⟨["a", "b"], "Foo"⟩] = [("A", "Foo"), ("B", "Foo")] :=
  ⟨by decide, by
    rw [parseFieldList_named_expansion ["a", "b"] "Foo" [] (by decide)]
    decide⟩

/-- C3 counterexample: the declared names `a` and `b` are not kept verbatim
— the produced pairs carry `A` and `B`. -/
theorem parseFieldList_named_expansion_cex :
    Kitgen.parseFieldList [⟨["a", "b"], "Foo"⟩] = [("A", "Foo"), ("B", "Foo")] ∧
    Kitgen.parseFieldList [⟨["a", "b"], "Foo"⟩] ≠ [("a", "Foo"), ("b", "Foo")] := by
  decide

/-! ## Decorator merging: claims C2, C4 and C10 -/

/-- C2 (amended): in a comment block where decorator name `n` appears on
exactly two marker lines (any other marker lines carrying different names),
the map holds a single entry for `n`: if the second line supplies a
(necessarily non-empty) parameter set `p2`, the entry is `P1 ++ p2` in
order; if the second line supplies no parameters, the entry is RESET to the
nil parameter set — the first line's parameters are discarded, not left
untouched. -/
theorem parseDecorators_merge_two_lines
    (xs ys zs : List String) (l1 l2 : String) (n : String) (q1 q2 : Option String)
    (hx : ∀ l ∈ xs, decorName l ≠ some n)
    (hy : ∀ l ∈ ys, decorName l ≠ some n)
    (hz : ∀ l ∈ zs, decorName l ≠ some n)
    (h1 : decorLineParse l1 = some (n, q1))
    (h2 : decorLineParse l2 = some (n, q2)) :
    (∀ p2, lineParams q2 = some p2 →
      (Kitgen.parseDecorators (some (xs ++ l1 :: (ys ++ l2 :: zs)))).lookup n =
        some (some ((lineParams q1).getD [] ++ p2))) ∧
    (lineParams q2 = none →
      (Kitgen.parseDecorators (some (xs ++ l1 :: (ys ++ l2 :: zs)))).lookup n =
        some none) := by
  have hfold :
      Kitgen.parseDecorators (some (xs ++ l1 :: (ys ++ l2 :: zs))) =
        zs.foldl Kitgen.decorStep
          (Kitgen.decorStep
            (ys.foldl Kitgen.decorStep
              (Kitgen.decorStep (xs.foldl Kitgen.decorStep []) l1))
            l2) := by
    simp only [Kitgen.parseDecorators]
    rw [List.foldl_append, List.foldl_cons, List.foldl_append, List.foldl_cons]
  have hx0 : (xs.foldl Kitgen.decorStep ([] : DecorMap)).lookup n = none := by
    rw [foldl_decorStep_skip xs [] n hx]; rfl
  have hl1 :
      (Kitgen.decorStep (xs.foldl Kitgen.decorStep []) l1).lookup n =
        some (lineParams q1) := by
    rw [decorStep_lookup_mine _ _ _ _ h1, hx0]
  have hy1 :
      (ys.foldl Kitgen.decorStep
        (Kitgen.decorStep (xs.foldl Kitgen.decorStep []) l1)).lookup n =
        some (lineParams q1) := by
    rw [foldl_decorStep_skip ys _ n hy, hl1]
  constructor
  · intro p2 hp2
    have hp2ne : p2 ≠ [] := by
      cases q2 with
      | none => exact absurd hp2 (by simp [lineParams])
      | some s => exact csvReadRecord_ne_nil s p2 hp2
    rw [hfold, foldl_decorStep_skip zs _ n hz, decorStep_lookup_mine _ _ _ _ h2,
      hy1, hp2]
    cases hq1 : lineParams q1 with
    | some p1 => simp [goAppendStr]
    | none => simp [goAppendStr, hp2ne]
  · intro hp2
    rw [hfold, foldl_decorStep_skip zs _ n hz, decorStep_lookup_mine _ _ _ _ h2,
      hy1, hp2]

/-- Witness for C2: `//kit:foo a` then `//kit:foo b,c` (with an unrelated
`//kit:bar x` line between them) merge to `foo ↦ [a, b, c]`. -/
theorem parseDecorators_merge_two_lines_witness :
    decorLineParse "//kit:foo a" = some ("foo", some "a") ∧
    decorLineParse "//kit:foo b,c" = some ("foo", some "b,c") ∧
    (Kitgen.parseDecorators
        (some (["// Greeter"] ++ "//kit:foo a" :: (["//kit:bar x"] ++ "//kit:foo b,c" :: [])))).lookup "foo" =
      some (some ["a", "b", "c"]) :=
  ⟨by decide, by decide, by
    have h :=
      (parseDecorators_merge_two_lines ["// Greeter"] ["//kit:bar x"] []
        "//kit:foo a" "//kit:foo b,c" "foo" (some "a") (some "b,c")
        (by decide) (by decide) (by decide) (by decide) (by decide)).1
        ["b", "c"] (by decide)
    have he : (lineParams (some "a")).getD [] ++ ["b", "c"] = ["a", "b", "c"] := by decide
    rw [he] at h
    exact h⟩

/-- C2 counterexample: after `//kit:foo a`, a second bare `//kit:foo` line
does not leave the entry `[a]` untouched — it resets the entry to nil. -/
theorem parseDecorators_merge_two_lines_cex :
    Kitgen.parseDecorators (some ["//kit:foo a"]) = [("foo", some ["a"])] ∧
    Kitgen.parseDecorators (some ["//kit:foo a", "//kit:foo"]) = [("foo", none)] ∧
    Kitgen.parseDecorators (some ["//kit:foo a", "//kit:foo"]) ≠ [("foo", some ["a"])] := by
  decide

/-- The one decorator step on a line whose parameter record fails to decode
equals the step on a bare line carrying the same name. -/
theorem decorStep_decode_failure (st : DecorMap) (l : String) (n : String)
    (ps : String) (h1 : decorLineParse l = some (n, some ps))
    (h2 : csvReadRecord ps = none) :
    Kitgen.decorStep st l = Kitgen.decorStep st (kitCommentPrefix ++ n) := by
  have hn := decorLineParse_name_no_space l n (some ps) h1
  unfold Kitgen.decorStep
  rw [h1, decorLineParse_prefix_append n hn]
  simp [lineParams, h2]

/-- C4: a decorator line whose parameter record fails CSV decoding is not
fatal — the whole comment block parses exactly as if that line had supplied
no parameters, and the remaining lines are processed unchanged. -/
theorem parseDecorators_decode_failure_nonfatal
    (pre post : List String) (l : String) (n : String) (ps : String)
    (h1 : decorLineParse l = some (n, some ps))
    (h2 : csvReadRecord ps = none) :
    Kitgen.parseDecorators (some (pre ++ l :: post)) =
      Kitgen.parseDecorators (some (pre ++ (kitCommentPrefix ++ n) :: post)) := by
  simp only [Kitgen.parseDecorators]
  rw [List.foldl_append, List.foldl_append, List.foldl_cons, List.foldl_cons,
    decorStep_decode_failure _ l n ps h1 h2]

/-- Witness for C4: the malformed record `"a` (unterminated quote) decodes
to an error, and the block parses as if the line were a bare `//kit:foo`. -/
theorem parseDecorators_decode_failure_nonfatal_witness :
    decorLineParse "//kit:foo \x22a" = some ("foo", some "\x22a") ∧
    csvReadRecord "\x22a" = none ∧
    Kitgen.parseDecorators (some (["// doc"] ++ "//kit:foo \x22a" :: ["//kit:bar x"])) =
      Kitgen.parseDecorators (some (["// doc"] ++ ("//kit:" ++ "foo") :: ["//kit:bar x"])) :=
  ⟨by decide, by decide,
    parseDecorators_decode_failure_nonfatal ["// doc"] ["//kit:bar x"]
      "//kit:foo \x22a" "foo" "\x22a" (by decide) (by decide)⟩

/-- C10: the two `parseDecorators` implementations — `src/kitgen/render.go`
and `src/unnamed/part_000` — compute structurally equal decorator maps on
every comment block. -/
theorem parseDecorators_implementations_agree :
    ∀ comments, Kitgen.parseDecorators comments = Part000.parseDecorators comments := by
  intro comments
  rfl

/-! ## Template resolution and the walker: claims C5, C6 and C7 -/

/-- C5: `loadTemplate` first consults the process-wide registry for a
template already registered under the exact path and returns it without
reading; and after any successful load the template is registered, so a
second load of the same path returns the cached template with no further
read or parse (the boolean records whether this call read the source). -/
theorem loadTemplate_registry_and_cache (fs : TemplateFS)
    (reg : List GoTemplate) (name : String) :
    (∀ t, reg.find? (fun t0 => t0.name == name) = some t →
      loadTemplate fs reg name = Except.ok (t, reg, false)) ∧
    (∀ t reg2 b, loadTemplate fs reg name = Except.ok (t, reg2, b) →
      loadTemplate fs reg2 name = Except.ok (t, reg2, false)) := by
  constructor
  · intro t h
    unfold loadTemplate
    rw [h]
  · intro t reg2 b h
    unfold loadTemplate at h ⊢
    cases hf : reg.find? (fun t0 => t0.name == name) with
    | some t0 =>
      rw [hf] at h
      simp only [Except.ok.injEq, Prod.mk.injEq] at h
      obtain ⟨h1, h2, h3⟩ := h
      subst h1
      subst h2
      rw [hf]
    | none =>
      rw [hf] at h
      cases hl : List.lookup name fs with
      | none => rw [hl] at h; exact absurd h (by simp)
      | some data =>
        rw [hl] at h
        simp only [Except.ok.injEq, Prod.mk.injEq] at h
        obtain ⟨h1, h2, h3⟩ := h
        subst h1
        subst h2
        rw [List.find?_append, hf]
        simp [List.find?]

/-- Witness for C5: a first load of `/templates/foo/bar.tmpl` reads and
registers it; a second load returns the cached template without reading. -/
theorem loadTemplate_registry_and_cache_witness :
    loadTemplate [("/templates/foo/bar.tmpl", "B")] [] "/templates/foo/bar.tmpl" =
      Except.ok (⟨"/templates/foo/bar.tmpl", "B"⟩,
        [⟨"/templates/foo/bar.tmpl", "B"⟩], true) ∧
    loadTemplate [("/templates/foo/bar.tmpl", "B")]
        [⟨"/templates/foo/bar.tmpl", "B"⟩] "/templates/foo/bar.tmpl" =
      Except.ok (⟨"/templates/foo/bar.tmpl", "B"⟩,
        [⟨"/templates/foo/bar.tmpl", "B"⟩], false) :=
  ⟨by rfl,
    (loadTemplate_registry_and_cache [("/templates/foo/bar.tmpl", "B")] []
      "/templates/foo/bar.tmpl").2 _ _ _ (by rfl)⟩

/-- C6: when no template exists at the path derived from a decorator name
and parameter token — neither in the registry nor in the template
filesystem — the render step for that combination aborts with an error that
embeds both the decorator and the parameter, and produces no output (the
step returns the error alone; nothing is appended to the buffer for that
combination). -/
theorem renderCombo_missing_template (fs : TemplateFS)
    (exec : GoTemplate → List TypeModel → String) (reg : List GoTemplate)
    (models : List TypeModel) (buf : String) (d p : String)
    (h1 : reg.find? (fun t0 => t0.name == Kitgen.templatePath d p) = none)
    (h2 : List.lookup (Kitgen.templatePath d p) fs = none) :
    Kitgen.renderCombo fs exec reg models buf d p =
      Except.error (openFailMsg (Kitgen.templatePath d p)) ∧
    (∃ u v, (openFailMsg (Kitgen.templatePath d p)).data = u ++ d.data ++ v) ∧
    (∃ u v, (openFailMsg (Kitgen.templatePath d p)).data = u ++ p.data ++ v) := by
  refine ⟨?_, ?_, ?_⟩
  · unfold Kitgen.renderCombo loadTemplate
    rw [h1, h2]
  · refine ⟨"fail to open template, open ".data ++ "/templates/".data,
      "/".data ++ p.data ++ ".tmpl".data ++ ": file does not exist".data, ?_⟩
    simp [openFailMsg, Kitgen.templatePath, String.data_append, List.append_assoc]
  · refine ⟨"fail to open template, open ".data ++ "/templates/".data ++ d.data ++ "/".data,
      ".tmpl".data ++ ": file does not exist".data, ?_⟩
    simp [openFailMsg, Kitgen.templatePath, String.data_append, List.append_assoc]

/-- Witness for C6 at decorator `foo`, parameter `bar`, empty registry and
template filesystem. -/
theorem renderCombo_missing_template_witness :
    (([] : List GoTemplate).find?
        (fun t0 => t0.name == Kitgen.templatePath "foo" "bar") = none) ∧
    (List.lookup (Kitgen.templatePath "foo" "bar") ([] : TemplateFS) = none) ∧
    Kitgen.renderCombo [] (fun _ _ => "") [] [] "" "foo" "bar" =
      Except.error (openFailMsg (Kitgen.templatePath "foo" "bar")) :=
  ⟨rfl, rfl,
    (renderCombo_missing_template [] (fun _ _ => "") [] [] "" "foo" "bar"
      rfl rfl).1⟩

/-- A comment block none of whose lines carries the marker prefix parses to
the empty decorator map. -/
theorem parseDecorators_no_marker (ls : List String)
    (h : ∀ l ∈ ls, kitCommentPrefix.data.isPrefixOf l.data = false) :
    Kitgen.parseDecorators (some ls) = [] := by
  simp only [Kitgen.parseDecorators]
  induction ls with
  | nil => rfl
  | cons l ls ih =>
    rw [List.foldl_cons]
    have hstep : Kitgen.decorStep [] l = [] := by
      unfold Kitgen.decorStep
      have : decorLineParse l = none := by
        unfold decorLineParse
        rw [h l (List.mem_cons_self _ _)]
        simp
      rw [this]
    rw [hstep]
    exact ih (fun x hx => h x (List.mem_cons_of_mem _ hx))

/-- C7: visiting a type declaration whose attached documentation contains no
decorator comment appends nothing — the walker returns the buffer (and the
registry) unchanged. -/
theorem visitTypeDecl_no_decorators (fs : TemplateFS)
    (exec : GoTemplate → List TypeModel → String) (rname : String)
    (doc : Option (List String)) (specs : List GoTypeSpec)
    (reg : List GoTemplate) (buf : String)
    (h : ∀ l ∈ doc.getD [], kitCommentPrefix.data.isPrefixOf l.data = false) :
    Kitgen.visitTypeDecl fs exec rname doc specs reg buf = Except.ok (buf, reg) := by
  have hd : Kitgen.parseDecorators doc = [] := by
    cases doc with
    | none => rfl
    | some ls => exact parseDecorators_no_marker ls (by simpa using h)
  unfold Kitgen.visitTypeDecl
  rw [hd]
  simp

/-- Witness for C7: a declaration documented only by ordinary comments
leaves the buffer untouched. -/
theorem visitTypeDecl_no_decorators_witness :
    (∀ l ∈ (some ["// Greeter greets.", "// nothing else"]).getD [],
      kitCommentPrefix.data.isPrefixOf l.data = false) ∧
    Kitgen.visitTypeDecl [] (fun _ _ => "X") "Greeter"
        (some ["// Greeter greets.", "// nothing else"])
        [⟨"Greeter", GoTypeExpr.intf []⟩] [] "prelude" =
      Except.ok ("prelude", []) :=
  ⟨by decide,
    visitTypeDecl_no_decorators [] (fun _ _ => "X") "Greeter"
      (some ["// Greeter greets.", "// nothing else"])
      [⟨"Greeter", GoTypeExpr.intf []⟩] [] "prelude" (by decide)⟩

/-! ## Template helpers: claims C8 and C9 -/

/-- C8 (amended): the `capitalize` helper is `strings.ToTitle`, which maps
EVERY rune of the string to title case — on the ASCII strings this code
handles it coincides with the `upper` helper, rather than capitalizing only
the first letter. -/
theorem capitalizeHelper_upcases_everything :
    ∀ s, Kitgen.capitalizeHelper s = Kitgen.upperHelper s := by
  intro s
  have hc : goToTitleChar = goToUpperChar := rfl
  simp [Kitgen.capitalizeHelper, Kitgen.upperHelper, goToTitle, goToUpper, hc]

/-- C8 counterexample: `capitalize "ab"` is `"AB"`, not `"Ab"` — the
remainder of the string is not left unchanged. -/
theorem capitalizeHelper_cex :
    Kitgen.capitalizeHelper "ab" = "AB" ∧ Kitgen.capitalizeHelper "ab" ≠ "Ab" := by
  decide

/-- C9 (amended): the `uncapitalize` helper returns a value for every
NON-EMPTY string; on the empty string the slice `s[:1]` is out of range and
the helper fails (a Go runtime panic), so it is not total over all
strings. -/
theorem uncapitalizeHelper_total_on_nonempty (s : String) (h : s ≠ "") :
    (Kitgen.uncapitalizeHelper s).isSome = true := by
  obtain ⟨d⟩ := s
  cases d with
  | nil => exact absurd rfl h
  | cons c cs => rfl

/-- Witness for C9 at a non-empty string. -/
theorem uncapitalizeHelper_total_on_nonempty_witness :
    (("Hello" : String) ≠ "") ∧ (Kitgen.uncapitalizeHelper "Hello").isSome = true :=
  ⟨by decide, uncapitalizeHelper_total_on_nonempty "Hello" (by decide)⟩

/-- C9 counterexample: the `uncapitalize` helper has no value on the empty
string (Go aborts on the out-of-range slice `s[:1]`). -/
theorem uncapitalizeHelper_cex : Kitgen.uncapitalizeHelper "" = none := by
  rfl
